import Mathlib

/-!
Shallow embedding of `route.py` from the route-smoother repository.

The `Route` class holds a raw polyline (`line_string`, a list of coordinate
tuples) and an optional smoothed polyline (`smoothened_line_string`).  Its
methods are modelled here as pure functions over an abstract coordinate type
`α`.  The geodesic pair distance computed by `pyproj.Geod.geometry_length` on a
two-point `LineString` is an external library computation and is abstracted as
a parameter `d : α → α → ℝ` (or `α → α → ℚ` for the exactly-computed length
report); all filtering decisions in `route.py` consume coordinates only through
that distance and through tuple equality, so the embedding is faithful for
every choice of `d`.
-/

namespace RouteSmoother

/-- A Python numeric argument to `smoothen_route`: an `int` or a `float`
(floats are modelled as rationals; non-numeric arguments such as strings fail
in Python with `TypeError` at the first comparison and are outside this
model). -/
inductive PyVal where
  | int (n : ℤ)
  | float (q : ℚ)
deriving DecidableEq

/-- Numeric value of a Python argument, as used by `<` comparisons. -/
def PyVal.toRat : PyVal → ℚ
  | .int n => (n : ℚ)
  | .float q => q

/-- Embeds Python's `isinstance(x, int)`. -/
def PyVal.isInt : PyVal → Bool
  | .int _ => true
  | .float _ => false

/-- Embedding of `Route.__validate_smoothen_input` (route.py lines 211-231):
four range/type checks run in source order, each raising `ValueError`
(modelled as `Except.error` carrying the message). -/
def validate_smoothen_input (granular_level cutoff_angle cutoff_distance : PyVal) :
    Except String Unit :=
  if granular_level.toRat < 0 ∨ 10 < granular_level.toRat then
    Except.error "Granular level must be between 0 and 10"
  else if granular_level.isInt = false then
    Except.error "Granular level must be an integer"
  else if cutoff_angle.toRat < 0 ∨ 60 < cutoff_angle.toRat then
    Except.error "Cutoff angle must be between 0 and 60"
  else if cutoff_angle.isInt = false then
    Except.error "Cutoff angle must be an integer"
  else if cutoff_distance.toRat < 0 ∨ 1000 < cutoff_distance.toRat then
    Except.error "Cutoff distance must be between 0 and 10000"
  else if cutoff_distance.isInt = false then
    Except.error "Cutoff distance must be an integer"
  else Except.ok ()

/-- The mutable state of a `Route` object relevant to smoothing: the raw
polyline `line_string` (fixed after construction) and the optional
`smoothened_line_string`. -/
structure RouteState (α : Type) where
  line_string : List α
  smoothened_line_string : Option (List α)
deriving DecidableEq

variable {α : Type}

/-- Embedding of `Route.__get_line_string` (route.py lines 146-153):
`if self.smoothened_line_string:` is Python truthiness, which for a shapely
`LineString` is "not empty" and for `None` is false; so the smoothed polyline
is returned when it is set and non-empty, else the raw one. -/
def get_line_string (st : RouteState α) : List α :=
  match st.smoothened_line_string with
  | some l => if l.isEmpty then st.line_string else l
  | none => st.line_string

/-- Loop body of `Route.__remove_close_duplicate_coords` (route.py lines
155-167): a `for i, line_coord in enumerate(line_coords)` loop carrying the
index `i` and the accumulator `filtered_coords`; index 0 is always appended,
a later point is appended iff it differs from `filtered_coords[-1]`.
The `none` branch of `getLast?` is unreachable (the accumulator is non-empty
after index 0; Python would raise `IndexError` there). -/
def dupLoopAux [DecidableEq α] : ℕ → List α → List α → List α
  | _, filtered, [] => filtered
  | i, filtered, p :: rest =>
    if i = 0 then dupLoopAux (i + 1) (filtered ++ [p]) rest
    else
      match filtered.getLast? with
      | some a =>
        if p ≠ a then dupLoopAux (i + 1) (filtered ++ [p]) rest
        else dupLoopAux (i + 1) filtered rest
      | none => dupLoopAux (i + 1) filtered rest

/-- Embedding of `Route.__remove_close_duplicate_coords` (route.py lines
155-167), the DuplicateCollapser: run at `Route` construction on the raw
coordinates. -/
def remove_close_duplicate_coords [DecidableEq α] (coords : List α) : List α :=
  dupLoopAux 0 [] coords

/-- Tail of the duplicate-collapsing scan, phrased structurally: `a` is the
most recently kept point; a point equal to it is skipped, a different point is
kept and becomes the new anchor. -/
def dupGo [DecidableEq α] (a : α) : List α → List α
  | [] => []
  | p :: rest => if p = a then dupGo a rest else p :: dupGo p rest

/-- Embedding of `geod.geometry_length` on a whole polyline (used by
`get_total_distance`): the sum of the abstract pair distances `dq` over
consecutive vertices; 0 on lists with fewer than two points. -/
def geometry_length (dq : α → α → ℚ) : List α → ℚ
  | a :: b :: rest => dq a b + geometry_length dq (b :: rest)
  | _ => 0

/-- Round-half-even rounding of a rational to an integer, as Python's float
formatting uses. -/
def roundHalfEven (q : ℚ) : ℤ :=
  if q - (⌊q⌋ : ℚ) < 1 / 2 then ⌊q⌋
  else if 1 / 2 < q - (⌊q⌋ : ℚ) then ⌊q⌋ + 1
  else if 2 ∣ ⌊q⌋ then ⌊q⌋ else ⌊q⌋ + 1

/-- The three digits after the decimal point: `n` (0 ≤ n < 1000) rendered as
exactly three decimal digit characters. -/
def pad3 (n : ℕ) : String :=
  String.mk [Nat.digitChar (n / 100 % 10), Nat.digitChar (n / 10 % 10),
    Nat.digitChar (n % 10)]

/-- Embedding of the Python f-string `f"{x:.3f}"`: the value rounded
half-even at the third decimal, rendered with an integer part, a dot, and
exactly three fractional digits (with a leading minus sign for negative
values). -/
def format3 (q : ℚ) : String :=
  if q < 0 then
    "-" ++ toString ((roundHalfEven (-q * 1000)).toNat / 1000) ++ "." ++
      pad3 ((roundHalfEven (-q * 1000)).toNat % 1000)
  else
    toString ((roundHalfEven (q * 1000)).toNat / 1000) ++ "." ++
      pad3 ((roundHalfEven (q * 1000)).toNat % 1000)

/-- Embedding of `Route.get_total_distance` (route.py lines 50-60): the
geodesic length of the best-available polyline, divided by 1000 (metres to
kilometres) and formatted to three decimal places.  A pure function of the
state: it performs no assignment, mirroring the Python method which only
reads. -/
def get_total_distance (dq : α → α → ℚ) (st : RouteState α) : String :=
  format3 (geometry_length dq (get_line_string st) / 1000)

open Classical

/-- `math.degrees`: radians to degrees. -/
noncomputable def toDegrees (x : ℝ) : ℝ := x * 180 / Real.pi

/-- Embedding of `Route.__get_point_angle` (route.py lines 135-144):
`degrees(acos((A*A + C*C - B*B) / (2*A*C)))` guarded by
`except (ValueError, ZeroDivisionError): return 0`.  The `ZeroDivisionError`
fires exactly when the denominator `2*A*C` is zero, the `ValueError` exactly
when the `acos` argument lies outside `[-1, 1]`; both are modelled as explicit
branches returning 0. -/
noncomputable def get_point_angle (A B C : ℝ) : ℝ :=
  if 2 * A * C = 0 then 0
  else if (A * A + C * C - B * B) / (2 * A * C) < -1 ∨
      1 < (A * A + C * C - B * B) / (2 * A * C) then 0
  else toDegrees (Real.arccos ((A * A + C * C - B * B) / (2 * A * C)))

/-- The angle formula as the spec's section 4.4 words it:
`angle = degrees(acos((A² + C² − B²) / (2·A·C)))`, and "if `A·C == 0` or the
argument is outside [-1, 1] …, treat the angle as 0 … rather than failing",
written as the explicit fallback branch the spec's design notes call for. -/
noncomputable def law_of_cosines_angle (A B C : ℝ) : ℝ :=
  if A * C = 0 ∨ (A * A + C * C - B * B) / (2 * A * C) < -1 ∨
      1 < (A * A + C * C - B * B) / (2 * A * C) then 0
  else toDegrees (Real.arccos ((A * A + C * C - B * B) / (2 * A * C)))

/-- Loop body of `Route._smoothen_by_distance` (route.py lines 71-87): a
`for i, line_coord in enumerate(line_coords)` loop over the full coordinate
list `coords`, carrying the index `i` and the accumulator `filtered_coords`.
Index 0 and index `len(line_coords) - 1` are appended unconditionally; an
interior point is appended iff its distance from `filtered_coords[-1]` is
strictly below the cutoff.  The `none` branch of `getLast?` is unreachable
(the accumulator is non-empty once index 0 was processed). -/
noncomputable def distLoopAux (d : α → α → ℝ) (cutoff : ℝ) (coords : List α) :
    ℕ → List α → List α → List α
  | _, filtered, [] => filtered
  | i, filtered, p :: rest =>
    if i = 0 ∨ i = coords.length - 1 then
      distLoopAux d cutoff coords (i + 1) (filtered ++ [p]) rest
    else
      match filtered.getLast? with
      | some a =>
        if d a p < cutoff then distLoopAux d cutoff coords (i + 1) (filtered ++ [p]) rest
        else distLoopAux d cutoff coords (i + 1) filtered rest
      | none => distLoopAux d cutoff coords (i + 1) filtered rest

/-- Embedding of `Route._smoothen_by_distance` applied to a coordinate list:
the DistanceFilter stage. -/
noncomputable def smoothen_by_distance (d : α → α → ℝ) (cutoff : ℝ)
    (coords : List α) : List α :=
  distLoopAux d cutoff coords 0 [] coords

/-- Tail of the distance-filter scan, phrased structurally: `a` is the most
recently kept point, the final element is kept unconditionally. -/
noncomputable def distGo (d : α → α → ℝ) (cutoff : ℝ) (a : α) : List α → List α
  | [] => []
  | [p] => [p]
  | p :: q :: rest =>
    if d a p < cutoff then p :: distGo d cutoff p (q :: rest)
    else distGo d cutoff a (q :: rest)

/-- The DistanceFilter decision rule exactly as the claim words it, applied to
the interior points only: keep the current point iff its distance from the
most recently retained point (initially the first point) is strictly less
than the cutoff; a kept point becomes the new anchor. -/
noncomputable def distSpecScan (d : α → α → ℝ) (cutoff : ℝ) (anchor : α) :
    List α → List α
  | [] => []
  | p :: rest =>
    if d anchor p < cutoff then p :: distSpecScan d cutoff p rest
    else distSpecScan d cutoff anchor rest

/-- Loop body of `Route._smoothen_by_angle` (route.py lines 89-133): index 0
and the last index are appended unconditionally; for an interior point the
code computes `A = d(filtered_coords[-1], cur)`, `C = d(cur, line_coords[i+1])`
and `B = d(filtered_coords[-1], line_coords[i+1])`, calls
`__get_point_angle(A, B, C)` and skips the point iff that angle is strictly
below the cutoff.  The catch-all branch (empty accumulator or missing
`i + 1` entry) is unreachable for the lists fed by the method. -/
noncomputable def angleLoopAux (d : α → α → ℝ) (cutoff : ℝ) (coords : List α) :
    ℕ → List α → List α → List α
  | _, filtered, [] => filtered
  | i, filtered, p :: rest =>
    if i = 0 ∨ i = coords.length - 1 then
      angleLoopAux d cutoff coords (i + 1) (filtered ++ [p]) rest
    else
      match filtered.getLast?, coords[i + 1]? with
      | some a, some nxt =>
        if get_point_angle (d a p) (d a nxt) (d p nxt) < cutoff then
          angleLoopAux d cutoff coords (i + 1) filtered rest
        else angleLoopAux d cutoff coords (i + 1) (filtered ++ [p]) rest
      | _, _ => angleLoopAux d cutoff coords (i + 1) filtered rest

/-- Embedding of `Route._smoothen_by_angle` applied to a coordinate list: the
AngleFilter stage. -/
noncomputable def smoothen_by_angle (d : α → α → ℝ) (cutoff : ℝ)
    (coords : List α) : List α :=
  angleLoopAux d cutoff coords 0 [] coords

/-- Tail of the angle-filter scan, phrased structurally: `a` is the most
recently kept point, the lookahead neighbour is the next element of the
remaining input, and the final element is kept unconditionally. -/
noncomputable def angleGo (d : α → α → ℝ) (cutoff : ℝ) (a : α) : List α → List α
  | [] => []
  | [p] => [p]
  | p :: nxt :: rest =>
    if get_point_angle (d a p) (d a nxt) (d p nxt) < cutoff then
      angleGo d cutoff a (nxt :: rest)
    else p :: angleGo d cutoff p (nxt :: rest)

/-- The AngleFilter decision rule exactly as the claim words it, applied to
the interior points only: for the interior point `p` with most recently
retained anchor and the *original* next input point (the following interior
point, or the fixed last point `lst` for the final interior point), drop `p`
iff `law_of_cosines_angle A B C < cutoff` with `A = d anchor p`,
`B = d anchor next`, `C = d p next`. -/
noncomputable def angleSpecScan (d : α → α → ℝ) (cutoff : ℝ) (lst : α)
    (anchor : α) : List α → List α
  | [] => []
  | [p] =>
    if law_of_cosines_angle (d anchor p) (d anchor lst) (d p lst) < cutoff then []
    else [p]
  | p :: q :: rest =>
    if law_of_cosines_angle (d anchor p) (d anchor q) (d p q) < cutoff then
      angleSpecScan d cutoff lst anchor (q :: rest)
    else p :: angleSpecScan d cutoff lst p (q :: rest)

/-- First-occurring maximiser of `f` in a list, scanned left to right with a
running index and the best candidate so far. -/
noncomputable def argmaxAux (f : α → ℝ) : ℕ → Option (ℕ × α) → List α → Option (ℕ × α)
  | _, best, [] => best
  | i, none, p :: rest => argmaxAux f (i + 1) (some (i, p)) rest
  | i, some (j, q), p :: rest =>
    if f q < f p then argmaxAux f (i + 1) (some (i, p)) rest
    else argmaxAux f (i + 1) (some (j, q)) rest

/-- Index and value of the first maximiser of `f` in a list (`none` iff the
list is empty). -/
noncomputable def argmax (f : α → ℝ) (l : List α) : Option (ℕ × α) :=
  argmaxAux f 0 none l

/-- Modelled from the spec: the recursive core of section 4.5's
Douglas-Peucker simplification (the repository calls shapely's
`LineString.simplify`, an external library whose source is not part of this
repository).  With the chord endpoints fixed, find the interior point with
maximum deviation `pd first lst · ` from the chord; if that maximum is at
most the tolerance, collapse the segment to its endpoints, else split there
and recurse on both halves.  The fuel argument bounds the recursion depth;
`simplify` supplies enough fuel, and the fuel-exhausted fallback also returns
the two chord endpoints. -/
noncomputable def dpAux (pd : α → α → α → ℝ) (tol : ℝ) :
    ℕ → α → List α → α → List α
  | 0, first, _, lst => [first, lst]
  | fuel + 1, first, mid, lst =>
    match argmax (pd first lst) mid with
    | none => [first, lst]
    | some (i, p) =>
      if pd first lst p ≤ tol then [first, lst]
      else (dpAux pd tol fuel first (mid.take i) p).dropLast ++
        dpAux pd tol fuel p (mid.drop (i + 1)) lst

/-- Modelled from the spec: section 4.5's tolerance-based polyline
simplification applied by `Route._smoothen_by_simplifying` through shapely's
`LineString.simplify` (external library code).  `pd a b p` abstracts the
perpendicular deviation of `p` from the chord `a`-`b`. -/
noncomputable def simplify (pd : α → α → α → ℝ) (tol : ℝ) : List α → List α
  | [] => []
  | [a] => [a]
  | a :: b :: rest =>
    dpAux pd tol (b :: rest).length a (b :: rest).dropLast
      ((b :: rest).getLast?.getD b)

/-- Embedding of `Route._smoothen_by_distance` as a state transformer: it
reads the best-available polyline through `__get_line_string` and overwrites
`smoothened_line_string` with the filtered result. -/
noncomputable def route_smoothen_by_distance (d : α → α → ℝ) (cutoff : ℝ)
    (st : RouteState α) : RouteState α :=
  { st with
    smoothened_line_string := some (smoothen_by_distance d cutoff (get_line_string st)) }

/-- Embedding of `Route._smoothen_by_angle` as a state transformer. -/
noncomputable def route_smoothen_by_angle (d : α → α → ℝ) (cutoff : ℝ)
    (st : RouteState α) : RouteState α :=
  { st with
    smoothened_line_string := some (smoothen_by_angle d cutoff (get_line_string st)) }

/-- Embedding of `Route._smoothen_by_simplifying` (route.py lines 62-69) as a
state transformer: `tolerance = granular_level * 0.00003`, then shapely's
`simplify` on the best-available polyline (the `print` call has no effect on
the state). -/
noncomputable def route_smoothen_by_simplifying (pd : α → α → α → ℝ)
    (granular_level : ℝ) (st : RouteState α) : RouteState α :=
  { st with
    smoothened_line_string :=
      some (simplify pd (granular_level * 0.00003) (get_line_string st)) }

/-- Embedding of `Route.smoothen_route` (route.py lines 182-209): validate
the three parameters, then run the distance, angle and simplifying stages in
that order, each on the state left by the previous one.  A validation failure
propagates as the raised `ValueError` and no stage runs, so no state change
escapes. -/
noncomputable def smoothen_route (d : α → α → ℝ) (pd : α → α → α → ℝ)
    (granular_level cutoff_angle cutoff_distance : PyVal) (st : RouteState α) :
    Except String (RouteState α) :=
  match validate_smoothen_input granular_level cutoff_angle cutoff_distance with
  | .error e => .error e
  | .ok _ =>
    .ok (route_smoothen_by_simplifying pd ((granular_level.toRat : ℝ))
      (route_smoothen_by_angle d ((cutoff_angle.toRat : ℝ))
        (route_smoothen_by_distance d ((cutoff_distance.toRat : ℝ)) st)))

/-! ### Lemmas: duplicate collapser -/

lemma dupLoopAux_eq [DecidableEq α] (rest : List α) :
    ∀ (i : ℕ) (filtered : List α) (a : α), i ≠ 0 →
      filtered.getLast? = some a →
      dupLoopAux i filtered rest = filtered ++ dupGo a rest := by
  induction rest with
  | nil => intro i filtered a hi _; simp [dupLoopAux, dupGo]
  | cons p rest ih =>
    intro i filtered a hi ha
    by_cases hp : p = a
    · subst hp
      rw [show dupLoopAux i filtered (p :: rest) =
          (if i = 0 then dupLoopAux (i + 1) (filtered ++ [p]) rest
           else match filtered.getLast? with
            | some a =>
              if p ≠ a then dupLoopAux (i + 1) (filtered ++ [p]) rest
              else dupLoopAux (i + 1) filtered rest
            | none => dupLoopAux (i + 1) filtered rest) from rfl]
      rw [if_neg hi, ha]
      simp only [ne_eq, not_true_eq_false, if_false, ite_false]
      rw [ih (i + 1) filtered p (Nat.succ_ne_zero i) ha]
      simp [dupGo]
    · rw [show dupLoopAux i filtered (p :: rest) =
          (if i = 0 then dupLoopAux (i + 1) (filtered ++ [p]) rest
           else match filtered.getLast? with
            | some a =>
              if p ≠ a then dupLoopAux (i + 1) (filtered ++ [p]) rest
              else dupLoopAux (i + 1) filtered rest
            | none => dupLoopAux (i + 1) filtered rest) from rfl]
      rw [if_neg hi, ha]
      simp only [ne_eq, hp, not_false_eq_true, if_true, ite_true]
      rw [ih (i + 1) (filtered ++ [p]) p (Nat.succ_ne_zero i) (by simp)]
      simp [dupGo, hp]

lemma remove_close_duplicate_coords_cons [DecidableEq α] (p : α) (l : List α) :
    remove_close_duplicate_coords (p :: l) = p :: dupGo p l := by
  unfold remove_close_duplicate_coords
  rw [show dupLoopAux 0 ([] : List α) (p :: l) =
      dupLoopAux (0 + 1) ([] ++ [p]) l from by simp [dupLoopAux]]
  rw [dupLoopAux_eq l 1 ([] ++ [p]) p (by omega) (by simp)]
  simp

lemma dupGo_idem [DecidableEq α] (l : List α) :
    ∀ a, dupGo a (dupGo a l) = dupGo a l := by
  induction l with
  | nil => intro a; simp [dupGo]
  | cons p rest ih =>
    intro a
    by_cases hp : p = a
    · simp [dupGo, hp, ih]
    · simp only [dupGo, if_neg hp, ih]

lemma dupGo_chain' [DecidableEq α] (l : List α) :
    ∀ a, List.Chain' (· ≠ ·) (a :: dupGo a l) := by
  induction l with
  | nil => intro a; simp [dupGo]
  | cons p rest ih =>
    intro a
    by_cases hp : p = a
    · simpa [dupGo, hp] using ih a
    · simp only [dupGo, if_neg hp]
      rw [List.chain'_cons]
      exact ⟨fun h => hp h.symm, ih p⟩

lemma dupGo_eq_destutter' [DecidableEq α] (l : List α) :
    ∀ a, a :: dupGo a l = List.destutter' (· ≠ ·) a l := by
  induction l with
  | nil => intro a; simp [dupGo]
  | cons p rest ih =>
    intro a
    rw [List.destutter'_cons]
    by_cases hp : p = a
    · subst hp
      rw [if_neg (by simp)]
      simp only [dupGo, if_pos rfl]
      exact ih p
    · rw [if_pos (fun h => hp h.symm)]
      simp only [dupGo, if_neg hp]
      rw [ih p]

lemma remove_close_duplicate_coords_eq_destutter [DecidableEq α] (l : List α) :
    remove_close_duplicate_coords l = List.destutter (· ≠ ·) l := by
  cases l with
  | nil => rfl
  | cons p rest =>
    rw [remove_close_duplicate_coords_cons, List.destutter_cons', dupGo_eq_destutter']

/-- Claim C10: the DuplicateCollapser `__remove_close_duplicate_coords` is
idempotent on every input of at least one point; one application keeps the
first point, leaves no two consecutive equal points, and removes exactly the
points equal to the most recently kept one (equivalently, it is
`List.destutter` under `(· ≠ ·)`, whose pivot is always the last kept
point). -/
theorem remove_close_duplicate_coords_spec [DecidableEq α] (l : List α)
    (h : l ≠ []) :
    remove_close_duplicate_coords (remove_close_duplicate_coords l) =
      remove_close_duplicate_coords l ∧
    (remove_close_duplicate_coords l).head? = l.head? ∧
    List.Chain' (· ≠ ·) (remove_close_duplicate_coords l) ∧
    remove_close_duplicate_coords l = List.destutter (· ≠ ·) l := by
  obtain ⟨p, rest, rfl⟩ := List.exists_cons_of_ne_nil h
  refine ⟨?_, ?_, ?_, remove_close_duplicate_coords_eq_destutter _⟩
  · rw [remove_close_duplicate_coords_cons, remove_close_duplicate_coords_cons,
      dupGo_idem]
  · rw [remove_close_duplicate_coords_cons]; rfl
  · rw [remove_close_duplicate_coords_cons]; exact dupGo_chain' rest p

/-- Witness for C10 at the concrete three-coordinate input
`[(0,0,0), (0,0,0), (1,1,0)]` (integer coordinate triples): the middle
duplicate is removed once and a second application changes nothing. -/
theorem remove_close_duplicate_coords_spec_witness :
    ([((0:ℤ), (0:ℤ), (0:ℤ)), (0, 0, 0), (1, 1, 0)] ≠ ([] : List (ℤ × ℤ × ℤ))) ∧
    (remove_close_duplicate_coords
        (remove_close_duplicate_coords [((0:ℤ), (0:ℤ), (0:ℤ)), (0, 0, 0), (1, 1, 0)]) =
      remove_close_duplicate_coords [((0:ℤ), (0:ℤ), (0:ℤ)), (0, 0, 0), (1, 1, 0)] ∧
    (remove_close_duplicate_coords
        [((0:ℤ), (0:ℤ), (0:ℤ)), (0, 0, 0), (1, 1, 0)]).head? =
      [((0:ℤ), (0:ℤ), (0:ℤ)), (0, 0, 0), (1, 1, 0)].head? ∧
    List.Chain' (· ≠ ·)
      (remove_close_duplicate_coords [((0:ℤ), (0:ℤ), (0:ℤ)), (0, 0, 0), (1, 1, 0)]) ∧
    remove_close_duplicate_coords [((0:ℤ), (0:ℤ), (0:ℤ)), (0, 0, 0), (1, 1, 0)] =
      List.destutter (· ≠ ·) [((0:ℤ), (0:ℤ), (0:ℤ)), (0, 0, 0), (1, 1, 0)]) :=
  ⟨by decide, remove_close_duplicate_coords_spec _ (by decide)⟩

/-! ### Lemmas: distance filter -/

lemma distLoopAux_cons (d : α → α → ℝ) (cutoff : ℝ) (coords : List α) (i : ℕ)
    (filtered : List α) (p : α) (rest : List α) :
    distLoopAux d cutoff coords i filtered (p :: rest) =
      if i = 0 ∨ i = coords.length - 1 then
        distLoopAux d cutoff coords (i + 1) (filtered ++ [p]) rest
      else
        match filtered.getLast? with
        | some a =>
          if d a p < cutoff then
            distLoopAux d cutoff coords (i + 1) (filtered ++ [p]) rest
          else distLoopAux d cutoff coords (i + 1) filtered rest
        | none => distLoopAux d cutoff coords (i + 1) filtered rest := by
  simp only [distLoopAux]

lemma distLoopAux_cons_some (d : α → α → ℝ) (cutoff : ℝ) (coords : List α)
    (i : ℕ) (filtered : List α) (p : α) (rest : List α) (a : α) (hi : i ≠ 0)
    (hi1 : i ≠ coords.length - 1) (ha : filtered.getLast? = some a) :
    distLoopAux d cutoff coords i filtered (p :: rest) =
      if d a p < cutoff then
        distLoopAux d cutoff coords (i + 1) (filtered ++ [p]) rest
      else distLoopAux d cutoff coords (i + 1) filtered rest := by
  rw [distLoopAux_cons, if_neg (by push_neg; exact ⟨hi, hi1⟩), ha]

lemma distLoopAux_eq (d : α → α → ℝ) (cutoff : ℝ) (coords : List α)
    (rest : List α) :
    ∀ (i : ℕ) (filtered : List α) (a : α), i ≠ 0 →
      filtered.getLast? = some a →
      coords.length = i + rest.length →
      distLoopAux d cutoff coords i filtered rest =
        filtered ++ distGo d cutoff a rest := by
  induction rest with
  | nil => intro i filtered a hi _ _; simp [distLoopAux, distGo]
  | cons p rest ih =>
    intro i filtered a hi ha hlen
    cases rest with
    | nil =>
      have hl : i = coords.length - 1 := by
        simp only [List.length_cons, List.length_nil] at hlen; omega
      rw [distLoopAux_cons, if_pos (Or.inr hl)]
      simp [distLoopAux, distGo]
    | cons q rest' =>
      have hi1 : i ≠ coords.length - 1 := by
        simp only [List.length_cons] at hlen; omega
      rw [distLoopAux_cons_some d cutoff coords i filtered p (q :: rest') a hi hi1 ha]
      by_cases hd : d a p < cutoff
      · rw [if_pos hd]
        rw [ih (i + 1) (filtered ++ [p]) p (Nat.succ_ne_zero i) (by simp)
          (by simp only [List.length_cons] at hlen ⊢; omega)]
        simp [distGo, hd]
      · rw [if_neg hd]
        rw [ih (i + 1) filtered a (Nat.succ_ne_zero i) ha
          (by simp only [List.length_cons] at hlen ⊢; omega)]
        simp [distGo, hd]

lemma smoothen_by_distance_cons (d : α → α → ℝ) (cutoff : ℝ) (p : α)
    (l : List α) :
    smoothen_by_distance d cutoff (p :: l) = p :: distGo d cutoff p l := by
  unfold smoothen_by_distance
  rw [distLoopAux_cons, if_pos (Or.inl rfl)]
  rw [distLoopAux_eq d cutoff (p :: l) l 1 ([] ++ [p]) p (by omega) (by simp)
    (by simp only [List.length_cons]; omega)]
  simp

lemma distGo_cons (d : α → α → ℝ) (cutoff : ℝ) (a p : α) (rest : List α)
    (h : rest ≠ []) :
    distGo d cutoff a (p :: rest) =
      if d a p < cutoff then p :: distGo d cutoff p rest
      else distGo d cutoff a rest := by
  cases rest with
  | nil => exact absurd rfl h
  | cons q rest' => rfl

lemma distGo_eq_spec (d : α → α → ℝ) (cutoff : ℝ) (mid : List α) :
    ∀ (a lst : α), distGo d cutoff a (mid ++ [lst]) =
      distSpecScan d cutoff a mid ++ [lst] := by
  induction mid with
  | nil => intro a lst; simp [distGo, distSpecScan]
  | cons p mid' ih =>
    intro a lst
    rw [List.cons_append, distGo_cons d cutoff a p (mid' ++ [lst]) (by simp)]
    by_cases hd : d a p < cutoff
    · rw [if_pos hd, ih p lst]
      simp [distSpecScan, hd]
    · rw [if_neg hd, ih a lst]
      simp [distSpecScan, hd]

lemma smoothen_by_distance_eq_spec (d : α → α → ℝ) (cutoff : ℝ)
    (first lst : α) (mid : List α) :
    smoothen_by_distance d cutoff (first :: mid ++ [lst]) =
      first :: distSpecScan d cutoff first mid ++ [lst] := by
  simp only [List.cons_append]
  rw [smoothen_by_distance_cons, distGo_eq_spec]

/-- Claim C1: on every polyline of at least two points, the DistanceFilter
`_smoothen_by_distance` always keeps index 0 and the last index, and keeps an
interior point iff its distance from the most recently retained point
(initially the first point — so effects compound past rejected points) is
strictly below the cutoff: the indexed source loop equals the greedy
keep-iff-closer scan of the interior points, with the endpoints re-attached
verbatim. -/
theorem smoothen_by_distance_spec (d : α → α → ℝ) (cutoff : ℝ)
    (first lst : α) (mid : List α) :
    smoothen_by_distance d cutoff (first :: mid ++ [lst]) =
      first :: distSpecScan d cutoff first mid ++ [lst] :=
  smoothen_by_distance_eq_spec d cutoff first lst mid

/-! ### Lemmas: angle filter -/

lemma law_of_cosines_angle_eq (A B C : ℝ) :
    law_of_cosines_angle A B C = get_point_angle A B C := by
  unfold law_of_cosines_angle get_point_angle
  have h2 : (2 * A * C = 0) ↔ (A * C = 0) := by
    rw [mul_assoc]
    constructor
    · intro h
      rcases mul_eq_zero.mp h with h | h
      · norm_num at h
      · exact h
    · intro h
      rw [h, mul_zero]
  split_ifs with h1 h3 h4 h5 <;> tauto

lemma angleLoopAux_cons_keep (d : α → α → ℝ) (cutoff : ℝ) (coords : List α)
    (i : ℕ) (filtered : List α) (p : α) (rest : List α)
    (hl : i = 0 ∨ i = coords.length - 1) :
    angleLoopAux d cutoff coords i filtered (p :: rest) =
      angleLoopAux d cutoff coords (i + 1) (filtered ++ [p]) rest := by
  simp only [angleLoopAux]
  rw [if_pos hl]

lemma angleLoopAux_cons_some (d : α → α → ℝ) (cutoff : ℝ) (coords : List α)
    (i : ℕ) (filtered : List α) (p : α) (rest : List α) (a nxt : α)
    (hi : i ≠ 0) (hi1 : i ≠ coords.length - 1)
    (ha : filtered.getLast? = some a) (hn : coords[i + 1]? = some nxt) :
    angleLoopAux d cutoff coords i filtered (p :: rest) =
      if get_point_angle (d a p) (d a nxt) (d p nxt) < cutoff then
        angleLoopAux d cutoff coords (i + 1) filtered rest
      else angleLoopAux d cutoff coords (i + 1) (filtered ++ [p]) rest := by
  simp only [angleLoopAux]
  rw [if_neg (by push_neg; exact ⟨hi, hi1⟩), ha, hn]

lemma angleLoopAux_eq (d : α → α → ℝ) (cutoff : ℝ) (coords : List α)
    (rest : List α) :
    ∀ (i : ℕ) (filtered : List α) (a : α), i ≠ 0 →
      filtered.getLast? = some a →
      coords.drop i = rest →
      angleLoopAux d cutoff coords i filtered rest =
        filtered ++ angleGo d cutoff a rest := by
  induction rest with
  | nil => intro i filtered a hi _ _; simp [angleLoopAux, angleGo]
  | cons p rest ih =>
    intro i filtered a hi ha hdrop
    have hlen : coords.length - i = (p :: rest).length := by
      rw [← List.length_drop, hdrop]
    have hstep : coords.drop (i + 1) = rest := by
      have h := List.drop_drop 1 i coords
      rw [hdrop] at h
      simpa [Nat.add_comm] using h.symm
    cases rest with
    | nil =>
      have hl : i = coords.length - 1 := by
        simp only [List.length_cons, List.length_nil] at hlen; omega
      rw [angleLoopAux_cons_keep d cutoff coords i filtered p [] (Or.inr hl)]
      simp [angleLoopAux, angleGo]
    | cons q rest' =>
      have hi1 : i ≠ coords.length - 1 := by
        simp only [List.length_cons] at hlen; omega
      have hnext : coords[i + 1]? = some q := by
        have h : (coords.drop (i + 1))[0]? = some q := by rw [hstep]; simp
        rwa [List.getElem?_drop, Nat.add_zero] at h
      rw [angleLoopAux_cons_some d cutoff coords i filtered p (q :: rest') a q
        hi hi1 ha hnext]
      by_cases hang : get_point_angle (d a p) (d a q) (d p q) < cutoff
      · rw [if_pos hang]
        rw [ih (i + 1) filtered a (Nat.succ_ne_zero i) ha hstep]
        simp [angleGo, hang]
      · rw [if_neg hang]
        rw [ih (i + 1) (filtered ++ [p]) p (Nat.succ_ne_zero i) (by simp) hstep]
        simp [angleGo, hang]

lemma smoothen_by_angle_cons (d : α → α → ℝ) (cutoff : ℝ) (p : α)
    (l : List α) :
    smoothen_by_angle d cutoff (p :: l) = p :: angleGo d cutoff p l := by
  unfold smoothen_by_angle
  rw [angleLoopAux_cons_keep d cutoff (p :: l) 0 [] p l (Or.inl rfl)]
  rw [angleLoopAux_eq d cutoff (p :: l) l 1 ([] ++ [p]) p (by omega) (by simp)
    (by simp)]
  simp

lemma angleGo_cons (d : α → α → ℝ) (cutoff : ℝ) (a p q : α) (rest : List α) :
    angleGo d cutoff a (p :: q :: rest) =
      if get_point_angle (d a p) (d a q) (d p q) < cutoff then
        angleGo d cutoff a (q :: rest)
      else p :: angleGo d cutoff p (q :: rest) := rfl

lemma angleGo_eq_spec (d : α → α → ℝ) (cutoff : ℝ) (mid : List α) :
    ∀ (a lst : α), angleGo d cutoff a (mid ++ [lst]) =
      angleSpecScan d cutoff lst a mid ++ [lst] := by
  induction mid with
  | nil => intro a lst; simp [angleGo, angleSpecScan]
  | cons p mid' ih =>
    intro a lst
    cases mid' with
    | nil =>
      by_cases h : get_point_angle (d a p) (d a lst) (d p lst) < cutoff
      · simp [angleGo, angleSpecScan, law_of_cosines_angle_eq, h]
      · simp [angleGo, angleSpecScan, law_of_cosines_angle_eq, h]
    | cons q mid'' =>
      rw [List.cons_append, List.cons_append, angleGo_cons]
      by_cases h : get_point_angle (d a p) (d a q) (d p q) < cutoff
      · rw [if_pos h, ← List.cons_append, ih a lst]
        simp [angleSpecScan, law_of_cosines_angle_eq, h]
      · rw [if_neg h, ← List.cons_append, ih p lst]
        simp [angleSpecScan, law_of_cosines_angle_eq, h]

lemma smoothen_by_angle_eq_spec (d : α → α → ℝ) (cutoff : ℝ) (first lst : α)
    (mid : List α) :
    smoothen_by_angle d cutoff (first :: mid ++ [lst]) =
      first :: angleSpecScan d cutoff lst first mid ++ [lst] := by
  simp only [List.cons_append]
  rw [smoothen_by_angle_cons, angleGo_eq_spec]

/-- Claim C2: on every polyline of at least two points, the AngleFilter
`_smoothen_by_angle` always keeps index 0 and the last index, and drops an
interior point `cur` iff `degrees(acos((A² + C² − B²) / (2·A·C)))` — with the
section-4.4 degenerate fallback to 0 — is strictly below the cutoff, where
`A` is the distance from the last retained point to `cur`, `C` the distance
from `cur` to the original next input point (index i+1), and `B` the distance
from the last retained point to that original next point: the indexed source
loop equals the spec-worded scan with asymmetric anchoring, with the
endpoints re-attached verbatim. -/
theorem smoothen_by_angle_spec (d : α → α → ℝ) (cutoff : ℝ) (first lst : α)
    (mid : List α) :
    smoothen_by_angle d cutoff (first :: mid ++ [lst]) =
      first :: angleSpecScan d cutoff lst first mid ++ [lst] :=
  smoothen_by_angle_eq_spec d cutoff first lst mid

lemma smoothen_by_angle_three (d : α → α → ℝ) (cutoff : ℝ) (p q r : α) :
    smoothen_by_angle d cutoff [p, q, r] =
      if get_point_angle (d p q) (d p r) (d q r) < cutoff then [p, r]
      else [p, q, r] := by
  rw [show ([p, q, r] : List α) = p :: [q, r] from rfl, smoothen_by_angle_cons,
    angleGo_cons]
  by_cases h : get_point_angle (d p q) (d p r) (d q r) < cutoff
  · rw [if_pos h, if_pos h]
    simp [angleGo]
  · rw [if_neg h, if_neg h]
    simp [angleGo]

/-! ### Lemmas: concrete angle values -/

lemma toDegrees_pi : toDegrees Real.pi = 180 := by
  unfold toDegrees
  rw [mul_comm, mul_div_assoc, div_self Real.pi_ne_zero, mul_one]

lemma get_point_angle_straight (A C : ℝ) (hA : 0 < A) (hC : 0 < C) :
    get_point_angle A (A + C) C = 180 := by
  unfold get_point_angle
  have h0 : 2 * A * C ≠ 0 := by positivity
  have harg : (A * A + C * C - (A + C) * (A + C)) / (2 * A * C) = -1 := by
    rw [div_eq_iff h0]; ring
  rw [if_neg h0, harg, if_neg (by norm_num), Real.arccos_neg_one, toDegrees_pi]

lemma get_point_angle_backtrack (A : ℝ) (hA : 0 < A) :
    get_point_angle A 0 A = 0 := by
  unfold get_point_angle
  have h0 : 2 * A * A ≠ 0 := by positivity
  have harg : (A * A + A * A - 0 * 0) / (2 * A * A) = 1 := by
    rw [div_eq_iff h0]; ring
  rw [if_neg h0, harg, if_neg (by norm_num), Real.arccos_one]
  unfold toDegrees
  simp

/-- The absolute-difference metric on the real line: the geodesic pair
distance of points spread along a single geodesic (for example equally-spaced
longitudes on the equator), used as a concrete distance for evaluating the
filters. -/
noncomputable def absDist : ℝ → ℝ → ℝ := fun x y => |x - y|

/-- Counterexample to claim C3 as stated: for the polyline `[0, 1, 2]` under
the collinear distance `absDist` the interior point 1 satisfies the claim's
premises exactly (`A = 1 > 0`, `C = 1 > 0`, `B = 2 = A + C`, cutoff
`45 > 0`), yet the AngleFilter KEEPS it — the computed interior angle is
`degrees(acos(-1)) = 180`, which is not below the cutoff — so the output is
`[0, 1, 2]`, not the `[0, 2]` the claim requires. -/
theorem angle_filter_collinear_not_dropped :
    0 < absDist 0 1 ∧ 0 < absDist 1 2 ∧
    absDist 0 2 = absDist 0 1 + absDist 1 2 ∧ (0 : ℝ) < 45 ∧
    smoothen_by_angle absDist 45 [0, 1, 2] = [0, 1, 2] ∧
    smoothen_by_angle absDist 45 [0, 1, 2] ≠ [0, 2] := by
  have h01 : absDist 0 1 = 1 := by unfold absDist; norm_num
  have h12 : absDist 1 2 = 1 := by unfold absDist; norm_num
  have h02 : absDist 0 2 = 2 := by unfold absDist; norm_num
  have hang : get_point_angle 1 2 1 = 180 := by
    have h := get_point_angle_straight 1 1 one_pos one_pos
    norm_num at h
    exact h
  have hsm : smoothen_by_angle absDist 45 [(0 : ℝ), 1, 2] = [0, 1, 2] := by
    rw [smoothen_by_angle_three, h01, h12, h02, hang, if_neg (by norm_num)]
  refine ⟨by rw [h01]; norm_num, by rw [h12]; norm_num,
    by rw [h01, h12, h02]; norm_num, by norm_num, hsm, ?_⟩
  rw [hsm]
  intro h
  have hlen := congrArg List.length h
  simp at hlen

/-- Claim C3 (amended): the AngleFilter's behaviour on collinear geometry is
the opposite of the claim.  An interior point whose anchors are exactly
collinear with it strictly between them (`A > 0`, `C > 0`, `B = A + C`) gets
interior angle 180 and is KEPT for every cutoff at most 180 degrees — in
particular for every valid cutoff in [0, 60] — while a point at a maximally
sharp turn (an exact backtrack: `B = 0`, `A = C > 0`) gets angle 0 and is
dropped for every cutoff above 0. -/
theorem angle_filter_straight_kept_sharp_dropped :
    (∀ (β : Type) (d : β → β → ℝ) (cutoff : ℝ) (p q r : β),
        0 < d p q → 0 < d q r → d p r = d p q + d q r → cutoff ≤ 180 →
        smoothen_by_angle d cutoff [p, q, r] = [p, q, r]) ∧
    (∀ (β : Type) (d : β → β → ℝ) (cutoff : ℝ) (p q r : β),
        0 < d p q → d q r = d p q → d p r = 0 → 0 < cutoff →
        smoothen_by_angle d cutoff [p, q, r] = [p, r]) := by
  constructor
  · intro β d cutoff p q r hA hC hB hcut
    rw [smoothen_by_angle_three, hB, get_point_angle_straight _ _ hA hC,
      if_neg (by linarith)]
  · intro β d cutoff p q r hA hC hB hcut
    rw [smoothen_by_angle_three, hB, hC, get_point_angle_backtrack _ hA,
      if_pos hcut]

/-- Witness for the amended C3: under `absDist`, the collinear polyline
`[0, 1, 2]` keeps its interior point at cutoff 45, and the backtracking
polyline `[0, 1, 0]` drops its interior point at cutoff 45. -/
theorem angle_filter_straight_kept_sharp_dropped_witness :
    smoothen_by_angle absDist 45 [(0 : ℝ), 1, 2] = [0, 1, 2] ∧
    smoothen_by_angle absDist 45 [(0 : ℝ), 1, 0] = [0, 0] := by
  constructor
  · exact angle_filter_straight_kept_sharp_dropped.1 ℝ absDist 45 0 1 2
      (by unfold absDist; norm_num) (by unfold absDist; norm_num)
      (by unfold absDist; norm_num) (by norm_num)
  · exact angle_filter_straight_kept_sharp_dropped.2 ℝ absDist 45 0 1 0
      (by unfold absDist; norm_num) (by unfold absDist; norm_num)
      (by unfold absDist; norm_num) (by norm_num)

/-! ### Claims about validation and degeneracy -/

/-- Claim C8: `__get_point_angle` is total and returns 0 on all degenerate
side lengths: whenever `A·C = 0` (a zero-length side, so Python's division
raises `ZeroDivisionError`) or the `acos` argument lies outside `[-1, 1]`
(Python raises `ValueError`), the guarded function returns 0 instead of
failing — being a total Lean function, the AngleFilter built on it is defined
on every input polyline. -/
theorem get_point_angle_degenerate_zero (A B C : ℝ)
    (h : A * C = 0 ∨ (A * A + C * C - B * B) / (2 * A * C) < -1 ∨
      1 < (A * A + C * C - B * B) / (2 * A * C)) :
    get_point_angle A B C = 0 := by
  unfold get_point_angle
  rcases h with h | h | h
  · rw [if_pos (by rw [mul_assoc, h, mul_zero])]
  · by_cases h0 : 2 * A * C = 0
    · rw [if_pos h0]
    · rw [if_neg h0, if_pos (Or.inl h)]
  · by_cases h0 : 2 * A * C = 0
    · rw [if_pos h0]
    · rw [if_neg h0, if_pos (Or.inr h)]

/-- Witness for C8 at the fully coincident configuration `A = B = C = 0`. -/
theorem get_point_angle_degenerate_zero_witness :
    ((0 : ℝ) * 0 = 0 ∨ ((0 : ℝ) * 0 + 0 * 0 - 0 * 0) / (2 * 0 * 0) < -1 ∨
      1 < ((0 : ℝ) * 0 + 0 * 0 - 0 * 0) / (2 * 0 * 0)) ∧
    get_point_angle 0 0 0 = 0 :=
  ⟨Or.inl (by norm_num),
    get_point_angle_degenerate_zero 0 0 0 (Or.inl (by norm_num))⟩

lemma validate_error_iff (g a c : PyVal) :
    (∃ e, validate_smoothen_input g a c = Except.error e) ↔
      (g.toRat < 0 ∨ 10 < g.toRat ∨ g.isInt = false ∨
       a.toRat < 0 ∨ 60 < a.toRat ∨ a.isInt = false ∨
       c.toRat < 0 ∨ 1000 < c.toRat ∨ c.isInt = false) := by
  unfold validate_smoothen_input
  split_ifs with h1 h2 h3 h4 h5 h6 <;> simp_all <;> tauto

/-- Claim C4: `smoothen_route` raises `ValidationError` (`ValueError`) iff
`granular_level` is outside `[0, 10]`, `cutoff_angle` is outside `[0, 60]`,
`cutoff_distance` is outside `[0, 1000]`, or any of the three values is not a
Python integer — in particular every `float` argument (not being an `int`
instance) is rejected. -/
theorem smoothen_route_validation_iff (d : α → α → ℝ) (pd : α → α → α → ℝ)
    (g a c : PyVal) (st : RouteState α) :
    (∃ e, smoothen_route d pd g a c st = Except.error e) ↔
      (g.toRat < 0 ∨ 10 < g.toRat ∨ g.isInt = false ∨
       a.toRat < 0 ∨ 60 < a.toRat ∨ a.isInt = false ∨
       c.toRat < 0 ∨ 1000 < c.toRat ∨ c.isInt = false) := by
  rw [← validate_error_iff g a c]
  unfold smoothen_route
  cases hv : validate_smoothen_input g a c with
  | error e => simp [hv]
  | ok u => cases u; simp [hv]

/-- Claim C5: `smoothen_route` is atomic with respect to the smoothed
polyline — validation runs before any smoothing stage, so every call rejected
by validation propagates the error with no stage applied and hence no change
to `smoothened_line_string`: the embedding returns the raised error and no
successor state, mirroring the Python exception thrown before any
assignment. -/
theorem smoothen_route_atomic_on_invalid (d : α → α → ℝ) (pd : α → α → α → ℝ)
    (g a c : PyVal) (st : RouteState α) (e : String)
    (hv : validate_smoothen_input g a c = Except.error e) :
    smoothen_route d pd g a c st = Except.error e := by
  unfold smoothen_route
  rw [hv]

/-- Witness for C5: `granular_level = 11` is rejected and the call on a
two-point route state errors without producing a state. -/
theorem smoothen_route_atomic_on_invalid_witness :
    validate_smoothen_input (.int 11) (.int 45) (.int 500) =
      Except.error "Granular level must be between 0 and 10" ∧
    smoothen_route (fun _ _ => (0 : ℝ)) (fun _ _ _ => (0 : ℝ)) (.int 11)
      (.int 45) (.int 500) (⟨[(0 : ℤ), 1], none⟩ : RouteState ℤ) =
      Except.error "Granular level must be between 0 and 10" :=
  ⟨by rfl, smoothen_route_atomic_on_invalid _ _ _ _ _ _ _ (by rfl)⟩

/-! ### Lemmas: endpoint preservation -/

lemma endpoints_of_shape (first lst : α) (t : List α) :
    (first :: t ++ [lst]).head? = some first ∧
    (first :: t ++ [lst]).getLast? = some lst ∧
    2 ≤ (first :: t ++ [lst]).length := by
  refine ⟨rfl, List.getLast?_concat _, ?_⟩
  simp only [List.length_append, List.length_cons]
  omega

lemma dpAux_shape (pd : α → α → α → ℝ) (tol : ℝ) :
    ∀ (fuel : ℕ) (first : α) (mid : List α) (lst : α),
      ∃ t, dpAux pd tol fuel first mid lst = first :: t ++ [lst] := by
  intro fuel
  induction fuel with
  | zero => intro first mid lst; exact ⟨[], rfl⟩
  | succ n ih =>
    intro first mid lst
    cases hm : argmax (pd first lst) mid with
    | none =>
      refine ⟨[], ?_⟩
      simp [dpAux, hm]
    | some ip =>
      obtain ⟨i, p⟩ := ip
      by_cases htol : pd first lst p ≤ tol
      · refine ⟨[], ?_⟩
        simp [dpAux, hm, htol]
      · obtain ⟨t1, h1⟩ := ih first (mid.take i) p
        obtain ⟨t2, h2⟩ := ih p (mid.drop (i + 1)) lst
        refine ⟨t1 ++ p :: t2, ?_⟩
        simp only [dpAux, hm]
        rw [if_neg htol, h1, h2, List.dropLast_concat]
        simp

lemma simplify_eq_dpAux (pd : α → α → α → ℝ) (tol : ℝ) (first lst : α)
    (mid : List α) :
    simplify pd tol (first :: mid ++ [lst]) =
      dpAux pd tol (mid.length + 1) first mid lst := by
  cases mid with
  | nil => simp [simplify]
  | cons m mid' =>
    rw [show first :: (m :: mid') ++ [lst] = first :: m :: (mid' ++ [lst])
      from by simp]
    simp only [simplify]
    have hdrop : (m :: (mid' ++ [lst])).dropLast = m :: mid' := by
      rw [show m :: (mid' ++ [lst]) = (m :: mid') ++ [lst] from by simp]
      exact List.dropLast_concat
    have hlast : (m :: (mid' ++ [lst])).getLast?.getD m = lst := by
      rw [show m :: (mid' ++ [lst]) = (m :: mid') ++ [lst] from by simp,
        List.getLast?_concat]
      rfl
    rw [hdrop, hlast]
    congr 1
    simp

/-- Claim C6: on every input polyline of at least two points, each smoothing
stage — DistanceFilter, AngleFilter and the CurveSimplifier (modelled from
the spec, since shapely's `simplify` is external library code) — returns a
polyline whose first and last points are exactly the first and last points of
its input, and therefore of length at least 2, for every cutoff and
tolerance. -/
theorem stages_preserve_endpoints (d : α → α → ℝ) (pd : α → α → α → ℝ)
    (cutoffD cutoffA tol : ℝ) (first lst : α) (mid : List α) :
    ((smoothen_by_distance d cutoffD (first :: mid ++ [lst])).head? = some first ∧
      (smoothen_by_distance d cutoffD (first :: mid ++ [lst])).getLast? = some lst ∧
      2 ≤ (smoothen_by_distance d cutoffD (first :: mid ++ [lst])).length) ∧
    ((smoothen_by_angle d cutoffA (first :: mid ++ [lst])).head? = some first ∧
      (smoothen_by_angle d cutoffA (first :: mid ++ [lst])).getLast? = some lst ∧
      2 ≤ (smoothen_by_angle d cutoffA (first :: mid ++ [lst])).length) ∧
    ((simplify pd tol (first :: mid ++ [lst])).head? = some first ∧
      (simplify pd tol (first :: mid ++ [lst])).getLast? = some lst ∧
      2 ≤ (simplify pd tol (first :: mid ++ [lst])).length) := by
  refine ⟨?_, ?_, ?_⟩
  · rw [smoothen_by_distance_eq_spec]
    exact endpoints_of_shape first lst _
  · rw [smoothen_by_angle_eq_spec]
    exact endpoints_of_shape first lst _
  · rw [simplify_eq_dpAux]
    obtain ⟨t, ht⟩ := dpAux_shape pd tol (mid.length + 1) first mid lst
    rw [ht]
    exact endpoints_of_shape first lst t

/-! ### Lemmas: the pipeline and the length query -/

lemma exists_two_le_decomp (l : List α) (h : 2 ≤ l.length) :
    ∃ (a : α) (m : List α) (b : α), l = a :: m ++ [b] := by
  cases l with
  | nil => simp at h
  | cons a t =>
    rcases t.eq_nil_or_concat' with rfl | ⟨m, b, rfl⟩
    · simp at h
    · exact ⟨a, m, b, rfl⟩

lemma get_line_string_some (raw : List α) (l : List α) (h : l ≠ []) :
    get_line_string ⟨raw, some l⟩ = l := by
  cases l with
  | nil => exact absurd rfl h
  | cons x xs => rfl

/-- Claim C7: on every successfully validated call (with the data-model
invariant that the best-available polyline has at least two points),
`smoothen_route` runs exactly DistanceFilter with the cutoff distance, then
AngleFilter with the cutoff angle, then CurveSimplifier with the granular
level, in that order; each stage reads the best-available polyline — the
smoothed one once set, the raw one initially — and overwrites the smoothed
polyline, so the final state carries the three stages composed on the
starting best-available polyline and the raw polyline is untouched. -/
theorem smoothen_route_pipeline (d : α → α → ℝ) (pd : α → α → α → ℝ)
    (g a c : PyVal) (st : RouteState α)
    (hv : validate_smoothen_input g a c = Except.ok ())
    (h2 : 2 ≤ (get_line_string st).length) :
    smoothen_route d pd g a c st = Except.ok
      { line_string := st.line_string,
        smoothened_line_string := some (simplify pd ((g.toRat : ℝ) * 0.00003)
          (smoothen_by_angle d (a.toRat : ℝ)
            (smoothen_by_distance d (c.toRat : ℝ) (get_line_string st)))) } := by
  obtain ⟨p0, m0, q0, hdec⟩ := exists_two_le_decomp _ h2
  have hout1 : smoothen_by_distance d (c.toRat : ℝ) (get_line_string st) =
      p0 :: distSpecScan d (c.toRat : ℝ) p0 m0 ++ [q0] := by
    rw [hdec, smoothen_by_distance_eq_spec]
  have hout1ne : smoothen_by_distance d (c.toRat : ℝ) (get_line_string st) ≠ [] := by
    rw [hout1]; simp
  have hst1 : get_line_string (route_smoothen_by_distance d (c.toRat : ℝ) st) =
      smoothen_by_distance d (c.toRat : ℝ) (get_line_string st) :=
    get_line_string_some _ _ hout1ne
  obtain ⟨p1, m1, q1, hdec1⟩ := exists_two_le_decomp
    (smoothen_by_distance d (c.toRat : ℝ) (get_line_string st))
    (by rw [hout1]; exact (endpoints_of_shape p0 q0 _).2.2)
  have hout2ne : smoothen_by_angle d (a.toRat : ℝ)
      (smoothen_by_distance d (c.toRat : ℝ) (get_line_string st)) ≠ [] := by
    rw [hdec1, smoothen_by_angle_eq_spec]; simp
  have hst2 : get_line_string (route_smoothen_by_angle d (a.toRat : ℝ)
        (route_smoothen_by_distance d (c.toRat : ℝ) st)) =
      smoothen_by_angle d (a.toRat : ℝ)
        (smoothen_by_distance d (c.toRat : ℝ) (get_line_string st)) := by
    unfold route_smoothen_by_angle
    rw [hst1]
    exact get_line_string_some _ _ hout2ne
  unfold smoothen_route
  rw [hv]
  unfold route_smoothen_by_simplifying
  rw [hst2]
  rfl

/-- Witness for C7: the default parameters `(5, 45, 500)` validate and the
pipeline runs all three stages on a two-point route. -/
theorem smoothen_route_pipeline_witness :
    validate_smoothen_input (.int 5) (.int 45) (.int 500) = Except.ok () ∧
    smoothen_route (fun _ _ => (0 : ℝ)) (fun _ _ _ => (0 : ℝ)) (.int 5)
      (.int 45) (.int 500) (⟨[(0 : ℤ), 1], none⟩ : RouteState ℤ) = Except.ok
      { line_string := [(0 : ℤ), 1],
        smoothened_line_string := some (simplify (fun _ _ _ => (0 : ℝ))
          (((PyVal.int 5).toRat : ℝ) * 0.00003)
          (smoothen_by_angle (fun _ _ => (0 : ℝ)) ((PyVal.int 45).toRat : ℝ)
            (smoothen_by_distance (fun _ _ => (0 : ℝ))
              ((PyVal.int 500).toRat : ℝ)
              (get_line_string (⟨[(0 : ℤ), 1], none⟩ : RouteState ℤ))))) } :=
  ⟨by rfl, smoothen_route_pipeline _ _ _ _ _ _ (by rfl) (by decide)⟩

lemma geometry_length_nonneg (dq : α → α → ℚ) (hd : ∀ p q, 0 ≤ dq p q) :
    ∀ l : List α, 0 ≤ geometry_length dq l
  | [] => by simp [geometry_length]
  | [a] => by simp [geometry_length]
  | a :: b :: rest => by
    have h := geometry_length_nonneg dq hd (b :: rest)
    simp only [geometry_length]
    exact add_nonneg (hd a b) h

lemma format3_decomp (q : ℚ) (h : 0 ≤ q) :
    ∃ s t : String, format3 q = s ++ "." ++ t ∧ t.length = 3 := by
  refine ⟨toString ((roundHalfEven (q * 1000)).toNat / 1000),
    pad3 ((roundHalfEven (q * 1000)).toNat % 1000), ?_, ?_⟩
  · unfold format3
    rw [if_neg (not_lt.mpr h)]
  · unfold pad3
    rfl

/-- Claim C9: `get_total_distance` returns the geodesic length of the
smoothed polyline when one is present (and non-empty, per Python truthiness)
and of the raw polyline otherwise, divided by 1000 into kilometres and
rendered with exactly three decimal places; the length is non-negative
whenever the pair distance is, and the function is a pure reader of the
state. -/
theorem get_total_distance_spec (dq : α → α → ℚ) (st : RouteState α)
    (hd : ∀ p q, 0 ≤ dq p q) :
    get_total_distance dq st =
      format3 (geometry_length dq (get_line_string st) / 1000) ∧
    0 ≤ geometry_length dq (get_line_string st) ∧
    (st.smoothened_line_string = none → get_line_string st = st.line_string) ∧
    (∀ l, st.smoothened_line_string = some l → l ≠ [] →
      get_line_string st = l) ∧
    ∃ s t : String, get_total_distance dq st = s ++ "." ++ t ∧
      t.length = 3 := by
  have hnn := geometry_length_nonneg dq hd (get_line_string st)
  refine ⟨rfl, hnn, ?_, ?_, ?_⟩
  · intro h
    unfold get_line_string
    rw [h]
  · intro l hl hne
    have : st = ⟨st.line_string, some l⟩ := by
      cases st; simp_all
    rw [this]
    exact get_line_string_some _ _ hne
  · exact format3_decomp _ (div_nonneg hnn (by norm_num))

/-- Witness for C9 on a two-point route with unit pair distance: the report
is the kilometre string with three decimals. -/
theorem get_total_distance_spec_witness :
    (∀ p q : ℤ, 0 ≤ (fun _ _ => (1 : ℚ)) p q) ∧
    (get_total_distance (fun _ _ => (1 : ℚ))
        (⟨[(0 : ℤ), 1], none⟩ : RouteState ℤ) =
      format3 (geometry_length (fun _ _ => (1 : ℚ))
        (get_line_string (⟨[(0 : ℤ), 1], none⟩ : RouteState ℤ)) / 1000) ∧
    0 ≤ geometry_length (fun _ _ => (1 : ℚ))
        (get_line_string (⟨[(0 : ℤ), 1], none⟩ : RouteState ℤ)) ∧
    ((⟨[(0 : ℤ), 1], none⟩ : RouteState ℤ).smoothened_line_string = none →
      get_line_string (⟨[(0 : ℤ), 1], none⟩ : RouteState ℤ) =
        (⟨[(0 : ℤ), 1], none⟩ : RouteState ℤ).line_string) ∧
    (∀ l, (⟨[(0 : ℤ), 1], none⟩ : RouteState ℤ).smoothened_line_string = some l →
      l ≠ [] → get_line_string (⟨[(0 : ℤ), 1], none⟩ : RouteState ℤ) = l) ∧
    ∃ s t : String,
      get_total_distance (fun _ _ => (1 : ℚ))
          (⟨[(0 : ℤ), 1], none⟩ : RouteState ℤ) = s ++ "." ++ t ∧
        t.length = 3) :=
  ⟨fun _ _ => by norm_num,
    get_total_distance_spec _ _ (fun _ _ => by norm_num)⟩

end RouteSmoother
